import Mathlib

/-!
# Verification of `bats-retry` (josegonzalez/go-bats-retry)

Shallow embedding of `src/main.go` (the current revision: the one with
`--execute`, `executeBatsCommands`, `updateTestFile` and `escapeTestcase`).

The program decodes junit XML test reports (`encoding/xml` into the Go
`Testsuite` struct), selects the non-passing testcases (`processJunitFile`),
and either writes a retry script (`main`, script mode) or re-runs each case
with `bats --filter` and rewrites the report (`executeBatsCommands`,
`updateTestFile`).

Modelling conventions:
* Strings are Lean `String`s; we reason through their `.data` character lists.
* The XML byte level is modelled structurally: `SuiteDoc` is a parsed junit
  document (an element either present with its content, or absent), and
  `decodeSuite`/`encodeSuite` model `xml.Unmarshal` into the Go struct and
  `xml.MarshalIndent` followed by the string surgery of `updateTestFile`
  (lines 212-223 of main.go).  Go's `xml.EscapeText` escapes every newline in
  character data and attribute values as `&#xA;`, so
  `strings.ReplaceAll(s, "&#xA;", "")` removes exactly the newline characters
  from every string field; the subsequent removals of
  `<failure type=""></failure>` and `<skipped></skipped>` drop exactly the
  marker elements whose attribute and text are empty after that newline strip.
  The final trailing-space trim / blank-line drop only affects serialization
  whitespace, except for mixed-content character data (an element that also
  has child elements), whose trailing spaces sit at end of line and are
  trimmed; that is reflected field-wise below.
* External effects (running `bats`, filesystem writes) are oracles/traces.
-/

set_option autoImplicit false

namespace BatsRetry

/-! ## Character-level string helpers -/

/-- Removal of every newline character from a string.  This is the field-level
effect of `strings.ReplaceAll(s, "&#xA;", "")` in `updateTestFile`, since Go's
XML encoder escapes each `'\n'` of character data and attribute values as the
five-byte sequence `&#xA;`. -/
def stripNL (s : String) : String :=
  ⟨s.data.filter (fun c => c ≠ '\n')⟩

/-- Removal of trailing spaces, the field-level effect of
`strings.TrimRight(line, " ")` on character data that ends a serialized
line. -/
def trimRightSpaces (s : String) : String :=
  ⟨(s.data.reverse.dropWhile (fun c => c = ' ')).reverse⟩

/-- `strings.ReplaceAll(s, string(c), r)` for a single-character pattern `c`:
every occurrence of the character is replaced by the string `r`. -/
def replaceAllChar (s : String) (c : Char) (r : List Char) : String :=
  ⟨s.data.flatMap (fun a => if a = c then r else [a])⟩

/-! ## Report Model (Go struct `Testsuite`, main.go lines 21-53) -/

/-- One `<property>` element: `Text` chardata, `Name` and `Value` attributes. -/
structure Property where
  text : String
  name : String
  value : String
  deriving Repr, DecidableEq

/-- The decoded `Failure` field of a testcase: `Text` chardata and `Type`
attribute.  An absent `<failure>` element decodes to both fields empty
(the Go zero value). -/
structure Failure where
  text : String
  type : String
  deriving Repr, DecidableEq

/-- One decoded testcase (the anonymous struct in `Testsuite.Testcase`). -/
structure Testcase where
  text : String
  classname : String
  name : String
  time : String
  failure : Failure
  skipped : String
  deriving Repr, DecidableEq

/-- The decoded `Testsuite` struct. -/
structure Testsuite where
  text : String
  name : String
  tests : String
  failures : String
  errors : String
  skipped : String
  time : String
  timestamp : String
  hostname : String
  propertiesText : String
  properties : List Property
  testcase : List Testcase
  systemOut : String
  systemErr : String
  deriving Repr, DecidableEq

/-! ## Structural XML documents

A `SuiteDoc` is a parsed junit document at the XML level: optional elements
are `Option`s, so that "marker element present with empty content" and
"marker element absent" are distinguished (the Go struct cannot tell them
apart after `xml.Unmarshal`). -/

/-- A `<failure>` element as present in the document. -/
structure FailureElem where
  type : String
  text : String
  deriving Repr, DecidableEq

/-- A `<testcase>` element. -/
structure CaseElem where
  text : String
  classname : String
  name : String
  time : String
  failure : Option FailureElem
  skipped : Option String
  deriving Repr, DecidableEq

/-- A `<testsuite>` document. -/
structure SuiteDoc where
  text : String
  name : String
  tests : String
  failures : String
  errors : String
  skipped : String
  time : String
  timestamp : String
  hostname : String
  propertiesText : String
  properties : List Property
  cases : List CaseElem
  systemOut : String
  systemErr : String
  deriving Repr, DecidableEq

/-! ## Report Codec -/

/-- `xml.Unmarshal` on one testcase element: an absent `<failure>` element
leaves the zero value `Failure{"", ""}`, an absent `<skipped>` element leaves
`""`. -/
def decodeCase (c : CaseElem) : Testcase :=
  { text := c.text
    classname := c.classname
    name := c.name
    time := c.time
    failure := match c.failure with
      | none => { text := "", type := "" }
      | some f => { text := f.text, type := f.type }
    skipped := c.skipped.getD "" }

/-- `xml.Unmarshal` of a whole document into the Go `Testsuite` struct
(`readJunitFile`, main.go lines 73-94, after a successful parse). -/
def decodeSuite (d : SuiteDoc) : Testsuite :=
  { text := d.text
    name := d.name
    tests := d.tests
    failures := d.failures
    errors := d.errors
    skipped := d.skipped
    time := d.time
    timestamp := d.timestamp
    hostname := d.hostname
    propertiesText := d.propertiesText
    properties := d.properties
    testcase := d.cases.map decodeCase
    systemOut := d.systemOut
    systemErr := d.systemErr }

/-- `xml.MarshalIndent` of one testcase followed by the string surgery of
`updateTestFile` (main.go lines 207-223), at the field level:
* every string loses its newlines (the `&#xA;` strip);
* the testcase's own chardata additionally loses trailing spaces (the
  testcase element always has `<failure>`/`<skipped>` children at marshal
  time, so its chardata ends a serialized line and is right-trimmed);
* the `<failure>` element is removed exactly when its `type` attribute and
  text are empty after the newline strip (`<failure type=""></failure>`);
* the `<skipped>` element is removed exactly when its content is empty after
  the newline strip (`<skipped></skipped>`). -/
def encodeCase (t : Testcase) : CaseElem :=
  let ft := stripNL t.failure.text
  let fy := stripNL t.failure.type
  let sk := stripNL t.skipped
  { text := trimRightSpaces (stripNL t.text)
    classname := stripNL t.classname
    name := stripNL t.name
    time := stripNL t.time
    failure := if fy = "" ∧ ft = "" then none else some { type := fy, text := ft }
    skipped := if sk = "" then none else some sk }

/-- Field-level effect of marshalling a `<property>` element (single line,
no children, so only the newline strip applies). -/
def encodeProperty (p : Property) : Property :=
  { text := stripNL p.text, name := stripNL p.name, value := stripNL p.value }

/-- `xml.MarshalIndent(testsuite, "", "   ")` followed by the string surgery
of `updateTestFile`, modelled structurally.  The testsuite chardata always
precedes child elements (the `<properties>` struct is always emitted), so it
is newline-stripped and right-trimmed; the `<properties>` chardata is
right-trimmed only when property children follow it on the same line. -/
def encodeSuite (s : Testsuite) : SuiteDoc :=
  { text := trimRightSpaces (stripNL s.text)
    name := stripNL s.name
    tests := stripNL s.tests
    failures := stripNL s.failures
    errors := stripNL s.errors
    skipped := stripNL s.skipped
    time := stripNL s.time
    timestamp := stripNL s.timestamp
    hostname := stripNL s.hostname
    propertiesText :=
      if s.properties = [] then stripNL s.propertiesText
      else trimRightSpaces (stripNL s.propertiesText)
    properties := s.properties.map encodeProperty
    cases := s.testcase.map encodeCase
    systemOut := stripNL s.systemOut
    systemErr := stripNL s.systemErr }

/-! ## Case Selector (`processJunitFile`, main.go lines 96-134) -/

/-- The per-testcase contribution of the selection loop (main.go lines
118-131): the skipped branch fires when the decoded `Skipped` string is
non-empty and `continue`s; otherwise the failure branch fires when the decoded
`Failure.Text` is non-empty. -/
def selectCase (t : Testcase) : List String :=
  if t.skipped ≠ "" then [t.name]
  else if t.failure.text ≠ "" then [t.name]
  else []

/-- The selection loop: `testcases = append(testcases, testcase.Name)` over
the cases in document order. -/
def selectTestcases : List Testcase → List String
  | [] => []
  | t :: rest => selectCase t ++ selectTestcases rest

/-! ## `path.Join` / `path.Clean` (Go standard library, used at main.go
lines 109 and 188) -/

/-- `strings.Split`-style splitting of a character list at `'/'`. -/
def splitSlashAux : List Char → List Char → List String
  | [], cur => [⟨cur.reverse⟩]
  | c :: rest, cur =>
    if c = '/' then ⟨cur.reverse⟩ :: splitSlashAux rest []
    else splitSlashAux rest (c :: cur)

/-- One step of the lexical cleaning of `path.Clean`: empty and `"."`
components are dropped, `".."` pops the last real component (kept literally
when nothing can be popped in a relative path, dropped at the root of a
rooted path), and any other component is pushed. -/
def cleanPush (rooted : Bool) (stack : List String) (comp : String) : List String :=
  if comp = "" ∨ comp = "." then stack
  else if comp = ".." then
    if stack = [] then (if rooted then [] else [".."])
    else if stack.headD "" = ".." then comp :: stack else stack.tail
  else comp :: stack

/-- Joining cleaned components back with `'/'`. -/
def joinParts : List String → String
  | [] => ""
  | [a] => a
  | a :: rest => a ++ "/" ++ joinParts rest

/-- Go `path.Clean`, modelled lexically: split at `'/'`, process the
components with `cleanPush`, re-join; an empty result is `"."` (or `"/"`
when rooted). -/
def pathClean (p : String) : String :=
  if p = "" then "."
  else
    let rooted := match p.data with
      | [] => false
      | c :: _ => c = '/'
    let stack := (splitSlashAux p.data []).foldl (cleanPush rooted) []
    if rooted then "/" ++ joinParts stack.reverse
    else if stack = [] then "." else joinParts stack.reverse

/-- Go `path.Join(a, b)`: the empty leading elements are skipped, the rest is
joined with `'/'` and cleaned; all-empty input yields `""`. -/
def pathJoin (a b : String) : String :=
  if a ≠ "" then pathClean (a ++ "/" ++ b)
  else if b ≠ "" then pathClean b
  else ""

/-! ## Source file resolution (`processJunitFile`, main.go lines 107-116) -/

/-- The property loop of `processJunitFile`: for each property named
`BATS_CWD` (no `break`, so the last one wins) the testfile is set to
`path.Join(property.Value, testsuite.Name)`; it starts out empty. -/
def resolveTestfile (s : Testsuite) : String :=
  s.properties.foldl
    (fun acc p => if p.name = "BATS_CWD" then pathJoin p.value s.name else acc) ""

/-- `processJunitFile` after a successful decode: error when the resolved
testfile is empty (`"Unable to generate testfile path"`), otherwise the
resolved testfile paired with the selected testcase names. -/
def processJunitFile (s : Testsuite) : Except String (String × List String) :=
  let testfile := resolveTestfile s
  if testfile = "" then Except.error "Unable to generate testfile path"
  else Except.ok (testfile, selectTestcases s.testcase)

/-! ## Reconciler (`updateTestFile`, main.go lines 185-236) -/

/-- `fmt.Sprintf("%v", math.Round(runTime.Seconds()))` for a non-negative
elapsed time of `ns` nanoseconds.  `math.Round` rounds half away from zero,
which for non-negative seconds is `floor(ns/1e9 + 1/2)`; `%v` prints the
integral float in plain decimal digits (elapsed times are far below the 1e21
exponent-notation threshold). -/
def roundSeconds (ns : Nat) : Nat :=
  (ns + 500000000) / 1000000000

/-- The duration string written into the updated testcase's `time`
attribute. -/
def durationString (ns : Nat) : String :=
  Nat.repr (roundSeconds ns)

/-- The update loop body of `updateTestFile` (main.go lines 194-205): every
testcase whose `Name` equals the target (there is no `break`) gets its time
set, its skipped marker cleared and both failure fields cleared. -/
def updateCase (nm : String) (timeStr : String) (t : Testcase) : Testcase :=
  if t.name = nm then
    { t with time := timeStr, skipped := "", failure := { text := "", type := "" } }
  else t

/-- The in-memory mutation of the decoded testsuite performed by
`updateTestFile` before re-encoding. -/
def updateSuite (s : Testsuite) (nm : String) (timeStr : String) : Testsuite :=
  { s with testcase := s.testcase.map (updateCase nm timeStr) }

/-- The document written back by `updateTestFile` for a report that decoded
to `s`, a target case name `nm` and an elapsed time of `ns` nanoseconds:
mutate in memory, then re-encode (marshal plus string surgery). -/
def updateTestFileDoc (s : Testsuite) (nm : String) (ns : Nat) : SuiteDoc :=
  encodeSuite (updateSuite s nm (durationString ns))

/-- `updateTestFile`'s result after a successful decode of the report:
`xml.MarshalIndent` of this struct cannot fail and the remaining failure
modes are filesystem I/O outside the embedding, so the function reaches its
final `return nil` with the re-encoded document written in place. -/
def updateTestFile (s : Testsuite) (nm : String) (ns : Nat) : Except String SuiteDoc :=
  Except.ok (updateTestFileDoc s nm ns)

/-! ## Executor (`executeBatsCommands`, main.go lines 156-183) -/

/-- One recorded per-case failure
(`result = multierror.Append(result, err)`). -/
inductive ExecErr where
  /-- The `bats` subprocess returned an error (main.go line 169). -/
  | batsFailed (testcase sourcefile : String)
  /-- `updateTestFile` returned an error (main.go line 176). -/
  | updateFailed (testfile testcase : String)
  deriving Repr, DecidableEq

/-- Oracles for the two external effects of the executor: whether the
`bats` subprocess for a (testcase, sourcefile) pair succeeds, and whether the
report rewrite for a (testfile, testcase) pair succeeds. -/
structure ExecEnv where
  batsOk : String → String → Bool
  updateOk : String → String → Bool

/-- The observable outcome of a run: the `bats` invocations in execution
order (the trace of `sh.Command("bats", args...).Run()` calls) and the
collected `multierror` list. -/
structure ExecOutcome where
  attempted : List (String × String)
  errs : List ExecErr
  deriving Repr, DecidableEq

/-- The retry plan: `map[string][][]string` of main.go, modelled as an
association list in insertion order (report filename to its ordered
(testcase, sourcefile) pairs). -/
abbrev RetryPlan : Type := List (String × List (String × String))

/-- The inner loop of `executeBatsCommands` over one report's commands: run
`bats`; on subprocess failure record and `continue`; on success run
`updateTestFile` and record its failure if any. -/
def execCommands (env : ExecEnv) (testfile : String)
    (cmds : List (String × String)) (acc : ExecOutcome) : ExecOutcome :=
  cmds.foldl
    (fun a cmd =>
      let a' : ExecOutcome := { a with attempted := a.attempted ++ [cmd] }
      if env.batsOk cmd.1 cmd.2 then
        if env.updateOk testfile cmd.1 then a'
        else { a' with errs := a'.errs ++ [ExecErr.updateFailed testfile cmd.1] }
      else { a' with errs := a'.errs ++ [ExecErr.batsFailed cmd.1 cmd.2] })
    acc

/-- `executeBatsCommands`: the nested loop over the plan, starting from a nil
`result` and no invocations. -/
def executeBatsCommands (env : ExecEnv) (plan : RetryPlan) : ExecOutcome :=
  plan.foldl (fun a p => execCommands env p.1 p.2 a) { attempted := [], errs := [] }

/-- The exit code of `main` in execute mode (main.go lines 300-306): 1 when
`executeBatsCommands` returned a non-nil aggregate, 0 otherwise. -/
def executeExitCode (env : ExecEnv) (plan : RetryPlan) : Nat :=
  if (executeBatsCommands env plan).errs = [] then 0 else 1

/-! ## Plan Builder / script mode (`escapeTestcase` and `main`,
main.go lines 238-242 and 283-298) -/

/-- `escapeTestcase`: `strings.ReplaceAll` of `"("` by `"\\("`, then of
`")"` by `"\\)"`. -/
def escapeTestcase (t : String) : String :=
  replaceAllChar (replaceAllChar t '(' ['\\', '(']) ')' ['\\', ')']

/-- One generated script line:
`fmt.Sprintf("bats --filter '%s' %s", escapeTestcase(test), testfile)`. -/
def scriptLine (test testfile : String) : String :=
  "bats --filter " ++ "'" ++ escapeTestcase test ++ "' " ++ testfile

/-- The fixed script header (main.go line 283): shebang, strict-mode
directive, blank line. -/
def scriptHeader : List String :=
  ["#!/usr/bin/env bash", "set -eo pipefail", ""]

/-- A report document file as seen by the plan-building loop of `main`: its
filename and either its parsed document or `none` when `readJunitFile` failed
(unreadable or unparseable file). -/
abbrev ReportFile : Type := String × Option SuiteDoc

/-- The plan-building loop of `main` (lines 285-298): for each retained file,
decode and run `processJunitFile`; any failure exits the whole run (modelled
as `Except.error`).  On success it accumulates the script lines and the
per-file command plan `[]string{test, testfile}` entries (every file gets an
entry, empty when it has no non-passing cases). -/
def buildPlan : List ReportFile → Except String (List String × RetryPlan)
  | [] => Except.ok ([], [])
  | (_, none) :: _ => Except.error "Error processing file"
  | (fname, some d) :: rest =>
    match processJunitFile (decodeSuite d) with
    | Except.error e => Except.error e
    | Except.ok (testfile, tests) =>
      match buildPlan rest with
      | Except.error e => Except.error e
      | Except.ok (lines, plan) =>
        Except.ok
          (tests.map (fun t => scriptLine t testfile) ++ lines,
           (fname, tests.map (fun t => (t, testfile))) :: plan)

/-- The full script written in script mode: the header followed by the
accumulated lines, or the fatal error. -/
def scriptLines (files : List ReportFile) : Except String (List String) :=
  (buildPlan files).map (fun r => scriptHeader ++ r.1)

/-- A file for which the plan-building loop aborts the run: unreadable or
unparseable, or decoded but with no resolvable testfile path. -/
def badFile (f : ReportFile) : Prop :=
  f.2 = none ∨ ∃ d, f.2 = some d ∧ resolveTestfile (decodeSuite d) = ""

/-- The field-level normalization a testcase undergoes across one
encode/decode round trip: newlines are stripped everywhere (the `&#xA;`
surgery) and the mixed-content chardata additionally loses trailing
spaces. -/
def stripCase (t : Testcase) : Testcase :=
  { text := trimRightSpaces (stripNL t.text)
    classname := stripNL t.classname
    name := stripNL t.name
    time := stripNL t.time
    failure := { text := stripNL t.failure.text, type := stripNL t.failure.type }
    skipped := stripNL t.skipped }

/-- The last property named `BATS_CWD`, i.e. the one whose value the
no-`break` loop of `processJunitFile` ends up using. -/
def lastCWD (s : Testsuite) : Option Property :=
  s.properties.reverse.find? (fun p => p.name == "BATS_CWD")

instance {ε α : Type} [DecidableEq ε] [DecidableEq α] : DecidableEq (Except ε α) := fun
  | Except.error a, Except.error b =>
    if h : a = b then Decidable.isTrue (by rw [h]) else Decidable.isFalse (by simp [h])
  | Except.error _, Except.ok _ => Decidable.isFalse (by simp)
  | Except.ok _, Except.error _ => Decidable.isFalse (by simp)
  | Except.ok a, Except.ok b =>
    if h : a = b then Decidable.isTrue (by rw [h]) else Decidable.isFalse (by simp [h])

/-! ## Supporting lemmas -/

theorem stripNL_eq_self (s : String) (h : ∀ c ∈ s.data, c ≠ '\n') : stripNL s = s := by
  cases s with
  | mk l =>
    simp only [stripNL]
    congr 1
    exact List.filter_eq_self.mpr (fun c hc => by simpa using h c hc)

theorem digitChar_ge16 (n : Nat) : Nat.digitChar (n + 16) = '*' := by
  unfold Nat.digitChar
  rw [if_neg (by omega : ¬(n + 16 = 0)), if_neg (by omega : ¬(n + 16 = 1)),
      if_neg (by omega : ¬(n + 16 = 2)), if_neg (by omega : ¬(n + 16 = 3)),
      if_neg (by omega : ¬(n + 16 = 4)), if_neg (by omega : ¬(n + 16 = 5)),
      if_neg (by omega : ¬(n + 16 = 6)), if_neg (by omega : ¬(n + 16 = 7)),
      if_neg (by omega : ¬(n + 16 = 8)), if_neg (by omega : ¬(n + 16 = 9)),
      if_neg (by omega : ¬(n + 16 = 10)), if_neg (by omega : ¬(n + 16 = 11)),
      if_neg (by omega : ¬(n + 16 = 12)), if_neg (by omega : ¬(n + 16 = 13)),
      if_neg (by omega : ¬(n + 16 = 14)), if_neg (by omega : ¬(n + 16 = 15))]

theorem digitChar_ne_newline : ∀ (m : Nat), Nat.digitChar m ≠ '\n'
  | 0 => by decide
  | 1 => by decide
  | 2 => by decide
  | 3 => by decide
  | 4 => by decide
  | 5 => by decide
  | 6 => by decide
  | 7 => by decide
  | 8 => by decide
  | 9 => by decide
  | 10 => by decide
  | 11 => by decide
  | 12 => by decide
  | 13 => by decide
  | 14 => by decide
  | 15 => by decide
  | n + 16 => by rw [digitChar_ge16]; decide

theorem toDigitsCore_ne_newline (b : Nat) :
    ∀ (fuel n : Nat) (ds : List Char), (∀ c ∈ ds, c ≠ '\n') →
      ∀ c ∈ Nat.toDigitsCore b fuel n ds, c ≠ '\n' := by
  intro fuel
  induction fuel with
  | zero => intro n ds h; simpa [Nat.toDigitsCore] using h
  | succ fuel ih =>
    intro n ds h
    have hcons : ∀ c ∈ Nat.digitChar (n % b) :: ds, c ≠ '\n' := by
      intro c hc
      rcases List.mem_cons.mp hc with h1 | h2
      · subst h1; exact digitChar_ne_newline _
      · exact h c h2
    simp only [Nat.toDigitsCore]
    split
    · exact hcons
    · exact ih _ _ hcons

theorem stripNL_natRepr (n : Nat) : stripNL (Nat.repr n) = Nat.repr n := by
  apply stripNL_eq_self
  intro c hc
  exact toDigitsCore_ne_newline 10 (n + 1) n [] (by simp) c hc

theorem stripNL_durationString (ns : Nat) :
    stripNL (durationString ns) = durationString ns :=
  stripNL_natRepr _

/-- `roundSeconds` is rounding half away from zero of the (non-negative)
rational number of seconds `ns / 1e9`. -/
theorem roundSeconds_eq_floor (ns : Nat) :
    roundSeconds ns = ⌊(ns : ℚ) / 1000000000 + 1 / 2⌋₊ := by
  have h : (ns : ℚ) / 1000000000 + 1 / 2
      = ((ns + 500000000 : ℕ) : ℚ) / ((1000000000 : ℕ) : ℚ) := by
    push_cast
    ring
  rw [roundSeconds, h, Nat.floor_div_nat, Nat.floor_natCast]

theorem decodeCase_encodeCase (t : Testcase) : decodeCase (encodeCase t) = stripCase t := by
  simp only [decodeCase, encodeCase, stripCase]
  split_ifs <;> simp_all

theorem decode_encode_testcase (u : Testsuite) :
    (decodeSuite (encodeSuite u)).testcase = u.testcase.map stripCase := by
  simp [decodeSuite, encodeSuite, List.map_map, Function.comp_def, decodeCase_encodeCase]

theorem selectTestcases_append (l1 l2 : List Testcase) :
    selectTestcases (l1 ++ l2) = selectTestcases l1 ++ selectTestcases l2 := by
  induction l1 with
  | nil => rfl
  | cons t rest ih => simp [selectTestcases, ih]

theorem selectTestcases_eq_filter (l : List Testcase) :
    selectTestcases l =
      (l.filter (fun t => t.skipped != "" || t.failure.text != "")).map
        (fun t => t.name) := by
  induction l with
  | nil => rfl
  | cons t rest ih =>
    by_cases h1 : t.skipped = "" <;> by_cases h2 : t.failure.text = "" <;>
      simp [selectTestcases, selectCase, h1, h2, ih, List.filter_cons]

theorem resolveTestfile_eq_lastCWD (s : Testsuite) :
    resolveTestfile s =
      match lastCWD s with
      | none => ""
      | some p => pathJoin p.value s.name := by
  have key : ∀ (l : List Property) (acc : String),
      l.foldl (fun acc p => if p.name = "BATS_CWD" then pathJoin p.value s.name else acc) acc
        = match l.reverse.find? (fun p => p.name == "BATS_CWD") with
          | none => acc
          | some p => pathJoin p.value s.name := by
    intro l
    induction l with
    | nil => intro acc; rfl
    | cons p rest ih =>
      intro acc
      simp only [List.foldl_cons, List.reverse_cons, List.find?_append, ih]
      cases hfind : rest.reverse.find? (fun p => p.name == "BATS_CWD") with
      | some q => simp [List.find?, hfind, Option.or]
      | none =>
        by_cases hp : p.name = "BATS_CWD"
        · have hbeq : (p.name == "BATS_CWD") = true := by simp [hp]
          simp [List.find?, hfind, Option.or, hp, hbeq]
        · have hbeq : (p.name == "BATS_CWD") = false := by simp [hp]
          simp [List.find?, hfind, Option.or, hp, hbeq]
  exact key s.properties ""

theorem append_ne_empty_left {a : String} (b : String) (h : a ≠ "") : a ++ b ≠ "" := by
  intro hab
  apply h
  have hd : a.data ++ b.data = [] := by
    have := congrArg String.data hab
    rwa [String.data_append] at this
  have ha : a.data = [] := (List.append_eq_nil.mp hd).1
  cases a with
  | mk l => simp_all

theorem joinParts_ne_empty :
    ∀ (l : List String), l ≠ [] → (∀ x ∈ l, x ≠ "") → joinParts l ≠ ""
  | [], h, _ => absurd rfl h
  | [a], _, h2 => by simpa [joinParts] using h2 a (by simp)
  | a :: b :: rest, _, h2 => by
    simp only [joinParts]
    exact append_ne_empty_left _ (append_ne_empty_left _ (h2 a (by simp)))

theorem mem_foldl_cleanPush_ne_empty (rooted : Bool) :
    ∀ (l : List String) (acc : List String), (∀ x ∈ acc, x ≠ "") →
      ∀ x ∈ l.foldl (cleanPush rooted) acc, x ≠ "" := by
  intro l
  induction l with
  | nil => intro acc h; simpa using h
  | cons comp rest ih =>
    intro acc h
    simp only [List.foldl_cons]
    apply ih
    intro x hx
    by_cases h1 : comp = "" ∨ comp = "."
    · rw [cleanPush, if_pos h1] at hx
      exact h x hx
    · by_cases h2 : comp = ".."
      · rw [cleanPush, if_neg h1, if_pos h2] at hx
        by_cases hacc : acc = []
        · rw [if_pos hacc] at hx
          cases rooted with
          | true => simp at hx
          | false =>
            simp only [Bool.false_eq_true, if_false, List.mem_singleton] at hx
            subst hx
            decide
        · rw [if_neg hacc] at hx
          by_cases ht : acc.headD "" = ".."
          · rw [if_pos ht] at hx
            rcases List.mem_cons.mp hx with h3 | h4
            · subst h3
              rw [h2]
              decide
            · exact h x h4
          · rw [if_neg ht] at hx
            exact h x (List.tail_subset acc hx)
      · rw [cleanPush, if_neg h1, if_neg h2] at hx
        rcases List.mem_cons.mp hx with h3 | h4
        · subst h3
          intro hfalse
          exact h1 (Or.inl hfalse)
        · exact h x h4

theorem pathClean_ne_empty (p : String) : pathClean p ≠ "" := by
  have hslash : ("/" : String) ≠ "" := by decide
  have hdot : ("." : String) ≠ "" := by decide
  simp only [pathClean]
  split_ifs with h0 hr hnil
  · exact hdot
  · exact append_ne_empty_left _ hslash
  · exact hdot
  · apply joinParts_ne_empty
    · simpa using hnil
    · intro x hx
      exact mem_foldl_cleanPush_ne_empty _ _ [] (by simp) x (List.mem_reverse.mp hx)

theorem pathJoin_eq_empty_iff (a b : String) : pathJoin a b = "" ↔ a = "" ∧ b = "" := by
  unfold pathJoin
  split_ifs with h1 h2
  · simp [pathClean_ne_empty, h1]
  · simp [pathClean_ne_empty, h2]
  · simp_all

/-! ## Claim C1 — Case Selector returns the non-passing case names in order

The claim's notion of non-passing ("the failure marker counts by presence
alone, independent of any human-readable message or type text") does not
match the code: the selection loop tests `testcase.Failure.Text != ""`
(main.go line 126), so a `<failure>` element that is present but has an
empty message is not selected (and likewise an empty `<skipped/>`). -/

/-- The spec's notion of a non-passing case, modelled from the spec's words:
a case is non-passing iff it carries a failure marker or a skipped marker,
by presence alone. -/
def specNonPassingCase (c : CaseElem) : Prop :=
  c.failure.isSome ∨ c.skipped.isSome

/-- A document-level case carrying a failure marker whose message is empty
(e.g. `<failure type="setup"></failure>`). -/
def c1case : CaseElem :=
  { text := "", classname := "nginx", name := "nginx:set proxy-busy-buffers-size",
    time := "0", failure := some { type := "setup", text := "" }, skipped := none }

/-- C1 is false as stated: `c1case` carries a failure marker (it is
non-passing in the spec's presence-only sense), yet the Case Selector
returns no names for a report containing exactly this case. -/
theorem C1_counterexample :
    specNonPassingCase c1case ∧ selectTestcases [decodeCase c1case] = [] := by
  constructor
  · exact Or.inl rfl
  · decide

/-- C1 (amended): for every decoded Report, the Case Selector returns
exactly the names, in original document order, of the cases whose skipped
content is non-empty or whose failure message text is non-empty; a failure
marker with an empty message (or a skipped marker with empty content) does
not select the case. -/
theorem C1_selector (s : Testsuite) :
    selectTestcases s.testcase =
      (s.testcase.filter (fun t => t.skipped != "" || t.failure.text != "")).map
        (fun t => t.name) ∧
    (selectTestcases s.testcase).length =
      (s.testcase.filter (fun t => t.skipped != "" || t.failure.text != "")).length := by
  refine ⟨selectTestcases_eq_filter _, ?_⟩
  rw [selectTestcases_eq_filter, List.length_map]

/-! ## Claim C5 — source file resolution and the base-directory property

The claim says resolution fails whenever the `BATS_CWD` property is absent
*or empty*.  The code only fails when the joined path is empty
(main.go line 113), and `path.Join("", name)` drops the empty part, so an
empty `BATS_CWD` with a non-empty report name resolves to just the name. -/

/-- A report whose `BATS_CWD` property is present but empty. -/
def c5suite : Testsuite :=
  { text := "", name := "test.bats", tests := "1", failures := "1", errors := "0",
    skipped := "0", time := "1", timestamp := "", hostname := "",
    propertiesText := "",
    properties := [{ text := "", name := "BATS_CWD", value := "" }],
    testcase := [{ text := "", classname := "t", name := "c", time := "1",
                   failure := { text := "boom", type := "failure" }, skipped := "" }],
    systemOut := "", systemErr := "" }

/-- C5 is false as stated: with the base-directory property present but
empty and a non-empty report name, `processJunitFile` succeeds (resolving
the path to just the report name) instead of failing. -/
theorem C5_counterexample :
    c5suite.properties.map (fun p => (p.name, p.value)) = [("BATS_CWD", "")] ∧
    processJunitFile c5suite = Except.ok ("test.bats", ["c"]) := by
  constructor
  · rfl
  · decide

/-- C5 (amended): the Case Selector resolves the source file path as
`path.Join(value, name)` using the *last* `BATS_CWD` property, and fails
(with the `Unable to generate testfile path` error) exactly when the
resolved path is empty — that is, when no `BATS_CWD` property exists, or
when the last one's value and the report name are both empty.  An empty
base-directory value with a non-empty report name does not fail. -/
theorem C5_resolution (s : Testsuite) :
    (resolveTestfile s =
      match lastCWD s with
      | none => ""
      | some p => pathJoin p.value s.name) ∧
    ((∃ e, processJunitFile s = Except.error e) ↔ resolveTestfile s = "") ∧
    (resolveTestfile s = "" ↔
      lastCWD s = none ∨ ∃ p, lastCWD s = some p ∧ p.value = "" ∧ s.name = "") := by
  refine ⟨resolveTestfile_eq_lastCWD s, ?_, ?_⟩
  · unfold processJunitFile
    by_cases h : resolveTestfile s = ""
    · simp [h]
    · simp [h]
  · rw [resolveTestfile_eq_lastCWD s]
    cases hlast : lastCWD s with
    | none => simp
    | some p =>
      simp only [hlast]
      rw [pathJoin_eq_empty_iff]
      constructor
      · rintro ⟨hv, hn⟩
        exact Or.inr ⟨p, rfl, hv, hn⟩
      · rintro (hc | ⟨q, hq, hv, hn⟩)
        · exact absurd hc (by simp)
        · cases Option.some.injEq p q ▸ hq with
          | refl => exact ⟨hv, hn⟩

/-! ## Claim C9 — a case with both markers is selected exactly once -/

/-- A testcase carrying both a skipped marker and a failure marker in the
operational sense of the selection loop. -/
def c9case : Testcase :=
  { text := "", classname := "c", name := "flaky", time := "1",
    failure := { text := "boom", type := "failure" }, skipped := "skipped for reasons" }

/-- C9: a case whose skipped content and failure message are both non-empty
contributes its name exactly once to the selection (the skipped branch
appends it and `continue`s past the failure branch), never twice. -/
theorem C9_both_markers (pre post : List Testcase) (t : Testcase)
    (hsk : t.skipped ≠ "") (_hf : t.failure.text ≠ "") :
    selectTestcases (pre ++ t :: post) =
      selectTestcases pre ++ t.name :: selectTestcases post := by
  rw [selectTestcases_append]
  simp [selectTestcases, selectCase, hsk]

/-- Witness for C9 at a concrete doubly-marked case. -/
theorem C9_both_markers_witness :
    selectTestcases ([] ++ c9case :: []) =
      selectTestcases [] ++ c9case.name :: selectTestcases [] :=
  C9_both_markers [] [] c9case (by decide) (by decide)

/-! ## Claims C7 and C8 — script mode and fatal plan-building errors -/

/-- The script lines produced by a successful plan build, file by file. -/
theorem buildPlan_ok_lines :
    ∀ (files : List ReportFile) (ls : List String) (plan : RetryPlan),
      buildPlan files = Except.ok (ls, plan) →
      ls = files.flatMap (fun f =>
        match f.2 with
        | none => []
        | some d => (selectTestcases (decodeSuite d).testcase).map
            (fun t => scriptLine t (resolveTestfile (decodeSuite d)))) := by
  intro files
  induction files with
  | nil =>
    intro ls plan h
    simp only [buildPlan, Except.ok.injEq, Prod.mk.injEq] at h
    simp [h.1.symm]
  | cons f rest ih =>
    intro ls plan h
    obtain ⟨fname, odoc⟩ := f
    cases odoc with
    | none => simp [buildPlan] at h
    | some d =>
      simp only [buildPlan] at h
      cases hp : processJunitFile (decodeSuite d) with
      | error e => rw [hp] at h; exact absurd h (by simp)
      | ok v =>
        obtain ⟨tf, tests⟩ := v
        rw [hp] at h
        cases hb : buildPlan rest with
        | error e => rw [hb] at h; exact absurd h (by simp)
        | ok pr =>
          obtain ⟨lines, plan2⟩ := pr
          rw [hb] at h
          simp only [Except.ok.injEq, Prod.mk.injEq] at h
          obtain ⟨hls, -⟩ := h
          have hproc : tf = resolveTestfile (decodeSuite d) ∧
              tests = selectTestcases (decodeSuite d).testcase := by
            unfold processJunitFile at hp
            by_cases hres : resolveTestfile (decodeSuite d) = ""
            · rw [if_pos hres] at hp; exact absurd hp (by simp)
            · rw [if_neg hres] at hp
              simp only [Except.ok.injEq, Prod.mk.injEq] at hp
              exact ⟨hp.1.symm, hp.2.symm⟩
          rw [← hls, List.flatMap_cons, ih lines plan2 hb, hproc.1, hproc.2]

/-- A failed plan build happens exactly on a bad file. -/
theorem buildPlan_error_iff :
    ∀ (files : List ReportFile),
      (∃ e, buildPlan files = Except.error e) ↔ ∃ f ∈ files, badFile f := by
  intro files
  induction files with
  | nil => simp [buildPlan, badFile]
  | cons f rest ih =>
    obtain ⟨fname, odoc⟩ := f
    cases odoc with
    | none =>
      simp only [buildPlan]
      constructor
      · intro
        exact ⟨(fname, none), by simp, Or.inl rfl⟩
      · intro
        exact ⟨"Error processing file", rfl⟩
    | some d =>
      simp only [buildPlan]
      by_cases hres : resolveTestfile (decodeSuite d) = ""
      · have hp : processJunitFile (decodeSuite d) =
            Except.error "Unable to generate testfile path" := by
          unfold processJunitFile
          rw [if_pos hres]
        rw [hp]
        constructor
        · intro
          exact ⟨(fname, some d), by simp, Or.inr ⟨d, rfl, hres⟩⟩
        · intro
          exact ⟨"Unable to generate testfile path", rfl⟩
      · have hp : processJunitFile (decodeSuite d) =
            Except.ok (resolveTestfile (decodeSuite d),
              selectTestcases (decodeSuite d).testcase) := by
          unfold processJunitFile
          rw [if_neg hres]
        rw [hp]
        cases hb : buildPlan rest with
        | error e =>
          constructor
          · intro
            obtain ⟨g, hg, hbad⟩ := ih.mp ⟨e, hb⟩
            exact ⟨g, List.mem_cons_of_mem _ hg, hbad⟩
          · intro
            exact ⟨e, rfl⟩
        | ok pr =>
          constructor
          · rintro ⟨e, he⟩
            exact absurd he (by simp)
          · rintro ⟨g, hg, hbad⟩
            rcases List.mem_cons.mp hg with hgf | hgrest
            · subst hgf
              rcases hbad with h1 | ⟨d2, hd2, hres2⟩
              · exact absurd h1 (by simp)
              · rw [Option.some.injEq] at hd2
                exact absurd (hd2 ▸ hres2) hres
            · obtain ⟨e, he⟩ := ih.mpr ⟨g, hgrest, hbad⟩
              rw [he] at hb
              exact absurd hb (by simp)

/-- The canonical character-level description of `escapeTestcase`: a
backslash is inserted before every parenthesis, all other characters pass
through unchanged. -/
theorem escapeTestcase_data (t : String) :
    (escapeTestcase t).data =
      t.data.flatMap (fun c => if c = '(' ∨ c = ')' then ['\\', c] else [c]) := by
  show ((t.data.flatMap fun a => if a = '(' then ['\\', '('] else [a]).flatMap
          fun a => if a = ')' then ['\\', ')'] else [a])
      = t.data.flatMap fun c => if c = '(' ∨ c = ')' then ['\\', c] else [c]
  induction t.data with
  | nil => rfl
  | cons c rest ih =>
    by_cases h1 : c = '(' <;> by_cases h2 : c = ')' <;>
      simp_all [List.flatMap_cons]

/-- A name with no parentheses is left unescaped. -/
theorem escapeTestcase_id (t : String) (h1 : '(' ∉ t.data) (h2 : ')' ∉ t.data) :
    escapeTestcase t = t := by
  have hdata := escapeTestcase_data t
  have hgen : ∀ l : List Char, '(' ∉ l → ')' ∉ l →
      l.flatMap (fun c => if c = '(' ∨ c = ')' then ['\\', c] else [c]) = l := by
    intro l
    induction l with
    | nil => intro _ _; rfl
    | cons c rest ih =>
      intro hc1 hc2
      simp only [List.mem_cons, not_or] at hc1 hc2
      rw [List.flatMap_cons, ih hc1.2 hc2.2,
        if_neg (by rintro (hc | hc) <;> simp_all)]
      rfl
  have hflat := hgen t.data h1 h2
  cases t with
  | mk l =>
    cases ht : escapeTestcase ⟨l⟩ with
    | mk l2 =>
      have : l2 = l := by
        have := ht ▸ hdata
        simpa using this.trans hflat
      rw [this]

/-- C7: in script mode every non-passing case of every report yields one
line `bats --filter '<escaped name>' <sourceFilePath>`, these lines follow
the shebang and the `set -eo pipefail` strict-mode directive, the escaping
puts a backslash before every parenthesis leaving all other characters
unchanged, and a name without parentheses is emitted verbatim. -/
theorem C7_script_mode (files : List ReportFile) (ls : List String) (plan : RetryPlan)
    (h : buildPlan files = Except.ok (ls, plan)) :
    scriptLines files = Except.ok (scriptHeader ++ ls) ∧
    scriptHeader = ["#!/usr/bin/env bash", "set -eo pipefail", ""] ∧
    ls = files.flatMap (fun f =>
      match f.2 with
      | none => []
      | some d => (selectTestcases (decodeSuite d).testcase).map
          (fun t => scriptLine t (resolveTestfile (decodeSuite d)))) ∧
    (∀ t tf, scriptLine t tf = "bats --filter " ++ "'" ++ escapeTestcase t ++ "' " ++ tf) ∧
    (∀ t, (escapeTestcase t).data =
      t.data.flatMap (fun c => if c = '(' ∨ c = ')' then ['\\', c] else [c])) ∧
    (∀ t, '(' ∉ t.data → ')' ∉ t.data → escapeTestcase t = t) := by
  refine ⟨?_, rfl, buildPlan_ok_lines files ls plan h, fun t tf => rfl,
    escapeTestcase_data, escapeTestcase_id⟩
  unfold scriptLines
  rw [h]
  rfl

/-- A concrete report with one failing case, used to witness C7. -/
def c7file : ReportFile :=
  ("report.xml", some
    { text := "", name := "test.bats", tests := "1", failures := "1", errors := "0",
      skipped := "0", time := "1", timestamp := "", hostname := "",
      propertiesText := "",
      properties := [{ text := "", name := "BATS_CWD", value := "/work" }],
      cases := [{ text := "", classname := "t", name := "nginx (core) works", time := "1",
                  failure := some { type := "failure", text := "boom" }, skipped := none }],
      systemOut := "", systemErr := "" })

/-- Witness for C7 at a concrete one-file plan build. -/
theorem C7_script_mode_witness :
    scriptLines [c7file] =
      Except.ok (scriptHeader ++
        [scriptLine "nginx (core) works" "/work/test.bats"]) :=
  (C7_script_mode [c7file]
    [scriptLine "nginx (core) works" "/work/test.bats"]
    [("report.xml", [("nginx (core) works", "/work/test.bats")])]
    (by decide)).1

/-- C8: the plan-building pass fails (and in script mode produces no
script) exactly when some retained report is broken — unreadable,
unparseable, or without a resolvable source path; a broken report is never
skipped. -/
theorem C8_fatal_on_bad_report (files : List ReportFile) :
    ((∃ f ∈ files, badFile f) ↔ ∃ e, buildPlan files = Except.error e) ∧
    (∀ e, buildPlan files = Except.error e → scriptLines files = Except.error e) := by
  constructor
  · exact (buildPlan_error_iff files).symm
  · intro e he
    unfold scriptLines
    rw [he]
    rfl

/-! ## Claim C6 — best-effort execution with aggregated errors -/

/-- The errors one report's command list contributes, command by command. -/
def cmdErrs (env : ExecEnv) (testfile : String) (cmds : List (String × String)) :
    List ExecErr :=
  cmds.flatMap (fun c =>
    if env.batsOk c.1 c.2 then
      if env.updateOk testfile c.1 then [] else [ExecErr.updateFailed testfile c.1]
    else [ExecErr.batsFailed c.1 c.2])

theorem execCommands_spec (env : ExecEnv) (testfile : String) :
    ∀ (cmds : List (String × String)) (acc : ExecOutcome),
      (execCommands env testfile cmds acc).attempted = acc.attempted ++ cmds ∧
      (execCommands env testfile cmds acc).errs = acc.errs ++ cmdErrs env testfile cmds := by
  intro cmds
  induction cmds with
  | nil => intro acc; simp [execCommands, cmdErrs]
  | cons c rest ih =>
    intro acc
    simp only [execCommands, List.foldl_cons] at *
    by_cases hb : env.batsOk c.1 c.2
    · by_cases hu : env.updateOk testfile c.1
      · have := ih { acc with attempted := acc.attempted ++ [c] }
        simpa [execCommands, cmdErrs, hb, hu, List.flatMap_cons] using this
      · have := ih { attempted := acc.attempted ++ [c],
                     errs := acc.errs ++ [ExecErr.updateFailed testfile c.1] }
        simpa [execCommands, cmdErrs, hb, hu, List.flatMap_cons] using this
    · have := ih { attempted := acc.attempted ++ [c],
                   errs := acc.errs ++ [ExecErr.batsFailed c.1 c.2] }
      simpa [execCommands, cmdErrs, hb, List.flatMap_cons] using this

theorem executeBatsCommands_spec (env : ExecEnv) (plan : RetryPlan) :
    (executeBatsCommands env plan).attempted = plan.flatMap (fun p => p.2) ∧
    (executeBatsCommands env plan).errs = plan.flatMap (fun p => cmdErrs env p.1 p.2) := by
  unfold executeBatsCommands
  suffices key : ∀ (pl : List (String × List (String × String))) (acc : ExecOutcome),
      (pl.foldl (fun a p => execCommands env p.1 p.2 a) acc).attempted
        = acc.attempted ++ pl.flatMap (fun p => p.2) ∧
      (pl.foldl (fun a p => execCommands env p.1 p.2 a) acc).errs
        = acc.errs ++ pl.flatMap (fun p => cmdErrs env p.1 p.2) by
    simpa using key plan { attempted := [], errs := [] }
  intro pl
  induction pl with
  | nil => intro acc; simp
  | cons p rest ih =>
    intro acc
    simp only [List.foldl_cons, List.flatMap_cons]
    obtain ⟨ha, he⟩ := execCommands_spec env p.1 p.2 acc
    obtain ⟨ha2, he2⟩ := ih (execCommands env p.1 p.2 acc)
    rw [ha2, he2, ha, he, List.append_assoc, List.append_assoc]
    exact ⟨rfl, rfl⟩

/-- C6: the Executor attempts every (case, source file) pair of the plan in
order regardless of failures; the aggregate error is empty exactly when
every subprocess and every rewrite succeeded; and the exit status is 0 on an
empty aggregate and 1 otherwise. -/
theorem C6_executor (env : ExecEnv) (plan : RetryPlan) :
    (executeBatsCommands env plan).attempted = plan.flatMap (fun p => p.2) ∧
    ((executeBatsCommands env plan).errs = [] ↔
      ∀ p ∈ plan, ∀ c ∈ p.2, env.batsOk c.1 c.2 = true ∧ env.updateOk p.1 c.1 = true) ∧
    (executeExitCode env plan = 0 ↔ (executeBatsCommands env plan).errs = []) ∧
    (executeExitCode env plan = 1 ↔ (executeBatsCommands env plan).errs ≠ []) := by
  obtain ⟨ha, he⟩ := executeBatsCommands_spec env plan
  refine ⟨ha, ?_, ?_, ?_⟩
  · rw [he, List.flatMap_eq_nil_iff]
    constructor
    · intro hall p hp c hc
      have hcmd := hall p hp
      unfold cmdErrs at hcmd
      rw [List.flatMap_eq_nil_iff] at hcmd
      have := hcmd c hc
      by_cases hb : env.batsOk c.1 c.2 <;> by_cases hu : env.updateOk p.1 c.1 <;>
        simp_all
    · intro hall p hp
      unfold cmdErrs
      rw [List.flatMap_eq_nil_iff]
      intro c hc
      obtain ⟨hb, hu⟩ := hall p hp c hc
      simp [hb, hu]
  · unfold executeExitCode
    by_cases hnil : (executeBatsCommands env plan).errs = [] <;> simp [hnil]
  · unfold executeExitCode
    by_cases hnil : (executeBatsCommands env plan).errs = [] <;> simp [hnil]

/-! ## Claims C2, C3, C4, C10 — Reconciler rewrite and codec round trip -/

/-- The cases visible after re-decoding a report rewritten by
`updateTestFile`: each original case is updated (when its name matches) and
then normalized by the encode/decode round trip. -/
theorem update_redecode (s : Testsuite) (nm : String) (ns : Nat) :
    (decodeSuite (updateTestFileDoc s nm ns)).testcase
      = s.testcase.map (fun t => stripCase (updateCase nm (durationString ns) t)) := by
  rw [updateTestFileDoc, decode_encode_testcase]
  simp [updateSuite, List.map_map, Function.comp_def]

/-- C2 (amended): after the Reconciler processes a case successfully,
re-decoding the rewritten report shows **every** case whose name matches the
target (not only the first — the update loop of main.go lines 194-205 has no
`break`) with no failure marker, no skipped marker, and duration equal to
the elapsed nanoseconds converted to seconds and rounded half away from
zero. -/
theorem C2_reconciler (s : Testsuite) (nm : String) (ns i : Nat) (t : Testcase)
    (hget : s.testcase[i]? = some t) (hname : t.name = nm) :
    (decodeSuite (updateTestFileDoc s nm ns)).testcase[i]? =
      some { text := trimRightSpaces (stripNL t.text)
             classname := stripNL t.classname
             name := stripNL nm
             time := durationString ns
             failure := { text := "", type := "" }
             skipped := "" } ∧
    durationString ns = Nat.repr (roundSeconds ns) ∧
    roundSeconds ns = ⌊(ns : ℚ) / 1000000000 + 1 / 2⌋₊ := by
  refine ⟨?_, rfl, roundSeconds_eq_floor ns⟩
  rw [update_redecode, List.getElem?_map, hget, Option.map_some']
  rw [updateCase, if_pos hname]
  have h0 : stripNL "" = "" := rfl
  simp [stripCase, stripNL_durationString, hname, h0]

/-- A one-case report used to witness C2. -/
def c2wsuite : Testsuite :=
  { text := "", name := "test.bats", tests := "1", failures := "1", errors := "0",
    skipped := "0", time := "1", timestamp := "", hostname := "",
    propertiesText := "",
    properties := [{ text := "", name := "BATS_CWD", value := "/work" }],
    testcase := [{ text := "", classname := "t", name := "a", time := "9",
                   failure := { text := "boom", type := "failure" }, skipped := "" }],
    systemOut := "", systemErr := "" }

/-- Witness for C2: re-running case `a` for 1.5 seconds rewrites it to a
passing case with duration `"2"` (half away from zero). -/
theorem C2_reconciler_witness :
    (decodeSuite (updateTestFileDoc c2wsuite "a" 1500000000)).testcase[0]? =
      some { text := "", classname := "t", name := "a", time := "2",
             failure := { text := "", type := "" }, skipped := "" } := by
  rw [(C2_reconciler c2wsuite "a" 1500000000 0
    { text := "", classname := "t", name := "a", time := "9",
      failure := { text := "boom", type := "failure" }, skipped := "" }
    rfl rfl).1]
  decide

/-- A report with two cases of the same name. -/
def c2suite : Testsuite :=
  { text := "", name := "test.bats", tests := "2", failures := "2", errors := "0",
    skipped := "0", time := "1", timestamp := "", hostname := "",
    propertiesText := "",
    properties := [{ text := "", name := "BATS_CWD", value := "/work" }],
    testcase := [{ text := "", classname := "t", name := "dup", time := "1",
                   failure := { text := "f1", type := "failure" }, skipped := "" },
                 { text := "", classname := "t", name := "dup", time := "1",
                   failure := { text := "f2", type := "failure" }, skipped := "" }],
    systemOut := "", systemErr := "" }

/-- C2 is false as stated ("only the first match is rewritten"): with two
cases named `dup`, rewriting for `dup` also clears the second case's failure
marker and resets its duration. -/
theorem C2_counterexample :
    (c2suite.testcase[1]?).map (fun t => t.failure.text) = some "f2" ∧
    ((decodeSuite (updateTestFileDoc c2suite "dup" 0)).testcase[1]?).map
      (fun t => (t.failure.text, t.skipped, t.time)) = some ("", "", "0") := by
  constructor
  · rfl
  · decide

/-- C3 (amended): when the Reconciler rewrites a report for one case, every
other case and every document-level field survives the rewrite only up to
the codec's normalization: newline characters are removed from every string
field (the `&#xA;` strip of main.go line 212) and mixed-content chardata is
right-trimmed; apart from that normalization nothing but the targeted
case's markers and duration changes. -/
theorem C3_frame (s : Testsuite) (nm : String) (ns : Nat) :
    (∀ (i : Nat) (t : Testcase), s.testcase[i]? = some t → t.name ≠ nm →
      (decodeSuite (updateTestFileDoc s nm ns)).testcase[i]? = some (stripCase t)) ∧
    (decodeSuite (updateTestFileDoc s nm ns)).text = trimRightSpaces (stripNL s.text) ∧
    (decodeSuite (updateTestFileDoc s nm ns)).name = stripNL s.name ∧
    (decodeSuite (updateTestFileDoc s nm ns)).tests = stripNL s.tests ∧
    (decodeSuite (updateTestFileDoc s nm ns)).failures = stripNL s.failures ∧
    (decodeSuite (updateTestFileDoc s nm ns)).errors = stripNL s.errors ∧
    (decodeSuite (updateTestFileDoc s nm ns)).skipped = stripNL s.skipped ∧
    (decodeSuite (updateTestFileDoc s nm ns)).time = stripNL s.time ∧
    (decodeSuite (updateTestFileDoc s nm ns)).timestamp = stripNL s.timestamp ∧
    (decodeSuite (updateTestFileDoc s nm ns)).hostname = stripNL s.hostname ∧
    (decodeSuite (updateTestFileDoc s nm ns)).propertiesText =
      (if s.properties = [] then stripNL s.propertiesText
       else trimRightSpaces (stripNL s.propertiesText)) ∧
    (decodeSuite (updateTestFileDoc s nm ns)).properties = s.properties.map encodeProperty ∧
    (decodeSuite (updateTestFileDoc s nm ns)).systemOut = stripNL s.systemOut ∧
    (decodeSuite (updateTestFileDoc s nm ns)).systemErr = stripNL s.systemErr := by
  refine ⟨?_, rfl, rfl, rfl, rfl, rfl, rfl, rfl, rfl, rfl, rfl, rfl, rfl, rfl⟩
  intro i t hget hne
  rw [update_redecode, List.getElem?_map, hget, Option.map_some']
  rw [updateCase, if_neg hne]

/-- A two-case report: `a` is the retry target, `b` is untouched. -/
def c3wsuite : Testsuite :=
  { text := "", name := "test.bats", tests := "2", failures := "2", errors := "0",
    skipped := "0", time := "1", timestamp := "", hostname := "",
    propertiesText := "",
    properties := [{ text := "", name := "BATS_CWD", value := "/work" }],
    testcase := [{ text := "", classname := "t", name := "a", time := "1",
                   failure := { text := "boom", type := "failure" }, skipped := "" },
                 { text := "", classname := "t", name := "b", time := "3",
                   failure := { text := "kept", type := "failure" }, skipped := "" }],
    systemOut := "", systemErr := "" }

/-- Witness for C3: the non-targeted case `b` of `c3wsuite` re-decodes to
its normalized self. -/
theorem C3_frame_witness :
    (decodeSuite (updateTestFileDoc c3wsuite "a" 5)).testcase[1]? =
      some (stripCase { text := "", classname := "t", name := "b", time := "3",
                        failure := { text := "kept", type := "failure" }, skipped := "" }) :=
  (C3_frame c3wsuite "a" 5).1 1
    { text := "", classname := "t", name := "b", time := "3",
      failure := { text := "kept", type := "failure" }, skipped := "" }
    rfl (by decide)

/-- A report whose non-targeted case has a failure message containing a
newline. -/
def c3suite : Testsuite :=
  { text := "", name := "test.bats", tests := "2", failures := "2", errors := "0",
    skipped := "0", time := "1", timestamp := "", hostname := "",
    propertiesText := "",
    properties := [{ text := "", name := "BATS_CWD", value := "/work" }],
    testcase := [{ text := "", classname := "t", name := "a", time := "1",
                   failure := { text := "boom", type := "failure" }, skipped := "" },
                 { text := "", classname := "t", name := "b", time := "3",
                   failure := { text := "x\ny", type := "failure" }, skipped := "" }],
    systemOut := "", systemErr := "" }

/-- C3 is false as stated: rewriting `c3suite` for case `a` changes the
*other* case `b` semantically — its two-line failure message `"x\ny"`
re-decodes as the single word `"xy"`, because the rewrite strips every
escaped newline (`&#xA;`) from the whole document. -/
theorem C3_counterexample :
    (c3suite.testcase[1]?).map (fun t => t.failure.text) = some "x\ny" ∧
    ((decodeSuite (updateTestFileDoc c3suite "a" 0)).testcase[1]?).map
      (fun t => t.failure.text) = some "xy" := by
  constructor
  · rfl
  · decide

/-- C4 (amended): an encode/decode round trip always preserves the number
and order of cases, and each case re-decodes to its `stripCase`
normalization — every field with its newlines removed (chardata also
right-trimmed); any string without newlines is preserved exactly, so case
names without newlines survive the round trip unchanged. -/
theorem C4_roundtrip (d : SuiteDoc) :
    (decodeSuite (encodeSuite (decodeSuite d))).testcase.length
      = (decodeSuite d).testcase.length ∧
    (∀ (i : Nat) (t : Testcase), (decodeSuite d).testcase[i]? = some t →
      (decodeSuite (encodeSuite (decodeSuite d))).testcase[i]? = some (stripCase t) ∧
      (stripCase t).name = stripNL t.name) ∧
    (∀ x : String, (∀ c ∈ x.data, c ≠ '\n') → stripNL x = x) := by
  refine ⟨?_, ?_, stripNL_eq_self⟩
  · rw [decode_encode_testcase, List.length_map]
  · intro i t hget
    refine ⟨?_, rfl⟩
    rw [decode_encode_testcase, List.getElem?_map, hget, Option.map_some']

/-- A parsed document whose single case name contains a newline. -/
def c4doc : SuiteDoc :=
  { text := "", name := "test.bats", tests := "1", failures := "1", errors := "0",
    skipped := "0", time := "1", timestamp := "", hostname := "",
    propertiesText := "",
    properties := [{ text := "", name := "BATS_CWD", value := "/work" }],
    cases := [{ text := "", classname := "t", name := "a\nb", time := "1",
                failure := some { type := "failure", text := "m" }, skipped := none }],
    systemOut := "", systemErr := "" }

/-- C4 is false as stated: the case named `"a\nb"` decodes fine, but after
one encode/decode round trip its name reads `"ab"` — case names are not
preserved in general. -/
theorem C4_counterexample :
    ((decodeSuite c4doc).testcase[0]?).map (fun t => t.name) = some "a\nb" ∧
    ((decodeSuite (encodeSuite (decodeSuite c4doc))).testcase[0]?).map
      (fun t => t.name) = some "ab" := by
  constructor
  · rfl
  · decide

/-- A newline-free document used to witness C4. -/
def c4wdoc : SuiteDoc :=
  { text := "", name := "test.bats", tests := "1", failures := "0", errors := "0",
    skipped := "1", time := "1", timestamp := "", hostname := "",
    propertiesText := "",
    properties := [{ text := "", name := "BATS_CWD", value := "/work" }],
    cases := [{ text := "", classname := "t", name := "wildcard SSL", time := "4",
                failure := none, skipped := some "only on CI" }],
    systemOut := "", systemErr := "" }

/-- Witness for C4 at a concrete document. -/
theorem C4_roundtrip_witness :
    (decodeSuite (encodeSuite (decodeSuite c4wdoc))).testcase[0]? =
      some (stripCase { text := "", classname := "t", name := "wildcard SSL",
                        time := "4", failure := { text := "", type := "" },
                        skipped := "only on CI" }) :=
  ((C4_roundtrip c4wdoc).2.1 0
    { text := "", classname := "t", name := "wildcard SSL", time := "4",
      failure := { text := "", type := "" }, skipped := "only on CI" }
    rfl).1

/-- C10 (amended): rewriting a report for a case name that occurs nowhere in
it succeeds with no error — the update loop matches nothing, the unchanged
suite is re-encoded and the file overwritten — and every case re-decodes to
its `stripCase` normalization (so the only changes are the codec's newline
strip and chardata trim, not a targeted update). -/
theorem C10_missing_case (s : Testsuite) (nm : String) (ns : Nat)
    (h : ∀ t ∈ s.testcase, t.name ≠ nm) :
    updateSuite s nm (durationString ns) = s ∧
    updateTestFile s nm ns = Except.ok (encodeSuite s) ∧
    (∀ (i : Nat) (t : Testcase), s.testcase[i]? = some t →
      (decodeSuite (updateTestFileDoc s nm ns)).testcase[i]? = some (stripCase t)) := by
  have hmap : ∀ l : List Testcase, (∀ t ∈ l, t.name ≠ nm) →
      l.map (updateCase nm (durationString ns)) = l := by
    intro l
    induction l with
    | nil => intro _; rfl
    | cons a rest ih =>
      intro hl
      rw [List.map_cons, ih (fun t ht => hl t (List.mem_cons_of_mem _ ht)),
        updateCase, if_neg (hl a (List.mem_cons_self a rest))]
  have hup : updateSuite s nm (durationString ns) = s := by
    unfold updateSuite
    rw [hmap s.testcase h]
  refine ⟨hup, ?_, ?_⟩
  · unfold updateTestFile updateTestFileDoc
    rw [hup]
  · intro i t hget
    rw [update_redecode, List.getElem?_map, hget, Option.map_some',
      updateCase, if_neg (h t (List.getElem?_mem hget))]

/-- A report containing only a case named `a` (with a newline in its failure
message). -/
def c10suite : Testsuite :=
  { text := "", name := "test.bats", tests := "1", failures := "1", errors := "0",
    skipped := "0", time := "1", timestamp := "", hostname := "",
    propertiesText := "",
    properties := [{ text := "", name := "BATS_CWD", value := "/work" }],
    testcase := [{ text := "", classname := "t", name := "a", time := "1",
                   failure := { text := "x\ny", type := "failure" }, skipped := "" }],
    systemOut := "", systemErr := "" }

/-- C10 is false as stated ("no case-level semantic change"): rewriting
`c10suite` for the absent name `b` succeeds without error, but the untouched
case `a` still loses the newline of its failure message on the way through
the re-encode. -/
theorem C10_counterexample :
    c10suite.testcase.map (fun t => t.name) = ["a"] ∧
    updateTestFile c10suite "b" 0 = Except.ok (encodeSuite c10suite) ∧
    ((decodeSuite (updateTestFileDoc c10suite "b" 0)).testcase[0]?).map
      (fun t => t.failure.text) = some "xy" ∧
    (c10suite.testcase[0]?).map (fun t => t.failure.text) = some "x\ny" := by
  refine ⟨rfl, ?_, by decide, rfl⟩
  decide

/-- A report with two plain failing cases used to witness C10. -/
def c10wsuite : Testsuite :=
  { text := "", name := "test.bats", tests := "2", failures := "2", errors := "0",
    skipped := "0", time := "1", timestamp := "", hostname := "",
    propertiesText := "",
    properties := [{ text := "", name := "BATS_CWD", value := "/work" }],
    testcase := [{ text := "", classname := "t", name := "a", time := "1",
                   failure := { text := "boom", type := "failure" }, skipped := "" },
                 { text := "", classname := "t", name := "b", time := "2",
                   failure := { text := "", type := "" }, skipped := "skipped" }],
    systemOut := "", systemErr := "" }

/-- Witness for C10: rewriting `c10wsuite` for the absent name `zz` leaves
the suite unchanged in memory and returns the re-encoded document without
error. -/
theorem C10_missing_case_witness :
    updateTestFile c10wsuite "zz" 3 = Except.ok (encodeSuite c10wsuite) :=
  (C10_missing_case c10wsuite "zz" 3 (by decide)).2.1

/-- A concrete oracle where every subprocess fails, for the C6 witness. -/
def c6env : ExecEnv :=
  { batsOk := fun _ _ => false, updateOk := fun _ _ => true }

/-- A concrete two-command plan for the C6 witness. -/
def c6plan : RetryPlan :=
  [("report.xml", [("a", "/work/test.bats"), ("b", "/work/test.bats")])]

/-- Witness for C6: even with both subprocesses failing, both commands are
attempted. -/
theorem C6_executor_witness :
    (executeBatsCommands c6env c6plan).attempted = c6plan.flatMap (fun p => p.2) :=
  (C6_executor c6env c6plan).1

/-- Witness for C8: one unreadable report makes the whole script-mode run
fail with no script. -/
theorem C8_fatal_on_bad_report_witness :
    scriptLines [("bad.xml", none)] = Except.error "Error processing file" :=
  (C8_fatal_on_bad_report [("bad.xml", none)]).2 "Error processing file" (by decide)

end BatsRetry
